import Mathlib

/-!
Formal model of the parameter-update engine and training setup of
`train.py` (sign-symmetry training repository).

Python floats are modelled by exact rationals (`ℚ`); Python strings by
`List Char`; object identity of parameters by a natural-number id.
-/

/-- Elementwise arithmetic sign: +1, -1, or 0 when exactly zero. -/
def qsign (x : ℚ) : ℚ :=
  if 0 < x then 1 else if x < 0 then -1 else 0

/-- Modelled from the spec: the step before the No-Sign-Change overlay of
`BMNSC_SGD.step` (file `optim/bm_nsc_sgd.py`, not present under `src/`),
spec section 4.3 items 1-3: weight decay folded into the gradient,
momentum applied, then `lr * v` (plain) or `lr * sign(v)` (Batch
Manhattan). -/
def unclampedDelta (bm : Bool) (lr mu wd p g v : ℚ) : ℚ :=
  let g1 := g + wd * p
  let v1 := mu * v + g1
  if bm then lr * qsign v1 else lr * v1

/-- Modelled from the spec: the per-element update step of `BMNSC_SGD.step`
(file `optim/bm_nsc_sgd.py`, not present under `src/`), following spec
section 4.3.  Given parameter value `p`, gradient `g`, momentum buffer `v`,
learning rate `lr`, momentum `mu`, weight decay `wd`, and the group's flags
`bm` (Batch Manhattan) and `nsc` (No-Sign-Change, already restricted to
non-bias parameters by the group builder), returns the new momentum buffer
and the new parameter value. -/
def updateElem (bm nsc : Bool) (lr mu wd p g v : ℚ) : ℚ × ℚ :=
  let g1 := g + wd * p
  let v1 := mu * v + g1
  let delta0 := unclampedDelta bm lr mu wd p g v
  let delta := if nsc && !(qsign (p - delta0) == qsign p) then p else delta0
  (v1, p - delta)

/-- New parameter value after one update step. -/
def updateElemP (bm nsc : Bool) (lr mu wd p g v : ℚ) : ℚ :=
  (updateElem bm nsc lr mu wd p g v).2

/-- A named parameter as enumerated by `model.named_parameters()`: the
dotted name, and a natural number `pid` standing for the identity of the
underlying parameter object (`is` comparison in `train.py` line 196). -/
structure NParam where
  name : List Char
  pid : Nat
deriving DecidableEq, Repr

/-- A parameter group as assembled in `train.py` lines 229-235: the member
parameters, the learning rate, and the two policy flags. -/
structure ParamGroup where
  params : List NParam
  lr : ℚ
  batch_manhattan : Bool
  no_sign_change : Bool
deriving DecidableEq, Repr

/-- Model of Python `haystack.rfind(needle)` restricted to list-of-char
strings: searches indices from `bound - 1` down to `0` for the rightmost
position where `needle` occurs, returning `-1` when there is none.
`pyRfind` below instantiates `bound` to `len(haystack) - len(needle) + 1`,
the largest index Python needs to examine. -/
def rfindAux (hay needle : List Char) : Nat → Option Nat
  | 0 => none
  | i + 1 => if needle.isPrefixOf (hay.drop i) then some i else rfindAux hay needle i

/-- Model of Python `haystack.rfind(needle)`: index of the last occurrence
of `needle` in `haystack`, or `-1`. -/
def pyRfind (hay needle : List Char) : Int :=
  match rfindAux hay needle (hay.length + 1 - needle.length) with
  | some i => (i : Int)
  | none => -1

/-- The characters of the Python literal `'bias'`. -/
def biasChars : List Char := ['b', 'i', 'a', 's']

/-- The bias test of `train.py` line 219:
`nparam[0].rfind('bias') == len(nparam[0]) - 4`. -/
def isBiasName (name : List Char) : Bool :=
  pyRfind name biasChars == (name.length : Int) - 4

/-- Group construction for one top-level parameter set (`train.py` lines
215-235): when `use_nsc` is set, split the set's named parameters into the
bias and non-bias sublists (one pass, order preserved) and emit the bias
group (flag off) followed by the non-bias group (flag on); otherwise emit a
single group with the flag off.  Returns the emitted groups paired with the
learning-rate entries appended to `lrs` (one `lr` per emitted group). -/
def buildGroupsForSet (use_bm use_nsc : Bool) (named : List NParam) (lr : ℚ) :
    List ParamGroup × List ℚ :=
  if use_nsc then
    let bias_params := named.filter (fun np => isBiasName np.name)
    let nonbias_params := named.filter (fun np => !isBiasName np.name)
    ([⟨bias_params, lr, use_bm, false⟩, ⟨nonbias_params, lr, use_bm, true⟩],
      [lr, lr])
  else
    ([⟨named, lr, use_bm, false⟩], [lr])

/-- The configuration fields of `args` that drive group construction. -/
structure GroupConfig where
  batch_manhattan : Bool
  last_layer_batch_manhattan : Bool
  no_sign_change : Bool
  last_layer_no_sign_change : Bool
  lr : ℚ
  llr : ℚ

/-- The non-last-layer named parameters (`train.py` lines 194-196): all
named parameters whose object is not identical (`is`) to any last-layer
parameter. -/
def nonlastNamed (allNamed lastNamed : List NParam) : List NParam :=
  allNamed.filter (fun np => !(lastNamed.any (fun lp => np.pid == lp.pid)))

/-- The full group-construction loop of `train.py` lines 202-236: the
non-last set is processed first, then the last set; `param_groups` and
`lrs` grow in step, one `lrs` entry per appended group. -/
def buildAll (cfg : GroupConfig) (allNamed lastNamed : List NParam) :
    List ParamGroup × List ℚ :=
  let sets := [(cfg.batch_manhattan, cfg.no_sign_change,
                nonlastNamed allNamed lastNamed, cfg.lr),
               (cfg.last_layer_batch_manhattan, cfg.last_layer_no_sign_change,
                lastNamed, cfg.llr)]
  sets.foldl
    (fun acc s =>
      let built := buildGroupsForSet s.1 s.2.1 s.2.2.1 s.2.2.2
      (acc.1 ++ built.1, acc.2 ++ built.2))
    ([], [])

/-- The groups built at startup. -/
def paramGroups (cfg : GroupConfig) (allNamed lastNamed : List NParam) :
    List ParamGroup :=
  (buildAll cfg allNamed lastNamed).1

/-- The `lrs` list built at startup, consumed by `adjust_learning_rate`. -/
def lrsList (cfg : GroupConfig) (allNamed lastNamed : List NParam) : List ℚ :=
  (buildAll cfg allNamed lastNamed).2

/-- How many times the parameter object `pid` occurs across all groups. -/
def pidCount (gs : List ParamGroup) (pid : Nat) : Nat :=
  (gs.map (fun g => g.params.countP (fun np => np.pid == pid))).sum

theorem rfindAux_some_lt (hay needle : List Char) (b i : Nat)
    (h : rfindAux hay needle b = some i) : i < b := by
  induction b with
  | zero => simp [rfindAux] at h
  | succ b ih =>
    rw [rfindAux] at h
    split at h
    · cases h
      omega
    · have := ih h
      omega

theorem isBiasName_iff (name : List Char) :
    isBiasName name = true ↔ (biasChars <:+ name ∨ name.length = 3) := by
  have hblen : biasChars.length = 4 := rfl
  unfold isBiasName pyRfind
  rcases Nat.lt_or_ge name.length 4 with hlt | hge
  · have hb : name.length + 1 - biasChars.length = 0 := by rw [hblen]; omega
    rw [hb]
    simp only [rfindAux]
    constructor
    · intro h
      right
      have : (-1 : Int) = (name.length : Int) - 4 := by
        exact_mod_cast beq_iff_eq.mp h
      omega
    · intro h
      rcases h with h | h
      · exact absurd (h.length_le) (by rw [hblen]; omega)
      · rw [h]
        decide
  · have hb : name.length + 1 - biasChars.length = (name.length - 4) + 1 := by
      rw [hblen]; omega
    rw [hb, rfindAux]
    by_cases hpre : biasChars.isPrefixOf (name.drop (name.length - 4))
    · rw [if_pos hpre]
      simp only
      have hsuf : biasChars <:+ name := by
        have hp : biasChars <+: name.drop (name.length - 4) :=
          List.isPrefixOf_iff_prefix.mp hpre
        have hlen : biasChars.length = (name.drop (name.length - 4)).length := by
          rw [hblen, List.length_drop]; omega
        rw [hp.eq_of_length hlen]
        exact List.drop_suffix _ _
      constructor
      · intro _
        exact Or.inl hsuf
      · intro _
        have : ((name.length - 4 : Nat) : Int) = (name.length : Int) - 4 := by
          omega
        rw [this]
        exact beq_self_eq_true _
    · rw [if_neg hpre]
      have hrhs : ¬ (biasChars <:+ name ∨ name.length = 3) := by
        rintro (hsuf | h3)
        · apply hpre
          have : biasChars = name.drop (name.length - biasChars.length) :=
            List.suffix_iff_eq_drop.mp hsuf
          rw [hblen] at this
          rw [← this]
          exact List.isPrefixOf_iff_prefix.mpr (List.prefix_refl _)
        · omega
      simp only [hrhs, iff_false]
      match hres : rfindAux name biasChars (name.length - 4) with
      | some i =>
        have hi := rfindAux_some_lt name biasChars _ _ hres
        simp only
        intro hcontra
        have : (i : Int) = (name.length : Int) - 4 := by
          exact_mod_cast beq_iff_eq.mp hcontra
        omega
      | none =>
        simp only
        intro hcontra
        have : (-1 : Int) = (name.length : Int) - 4 := by
          exact_mod_cast beq_iff_eq.mp hcontra
        omega

/-- C5 counterexample: the parameter named `'abc'` (three characters, not
ending in `'bias'`) is routed to the bias subset, because Python
`'abc'.rfind('bias')` returns `-1`, which equals `len('abc') - 4`. -/
theorem bias_routing_counterexample :
    (buildGroupsForSet false true [⟨['a', 'b', 'c'], 0⟩] 1).1 =
      [⟨[⟨['a', 'b', 'c'], 0⟩], 1, false, false⟩, ⟨[], 1, false, true⟩] ∧
    ¬ biasChars <:+ ['a', 'b', 'c'] := by
  constructor
  · decide
  · decide

/-- C5 (amended): when splitting a set for No-Sign-Change, a parameter is
routed to the bias subset (the first emitted group) if and only if its name
ends with the suffix `'bias'` or the name is exactly three characters long;
all other parameters go to the non-bias subset. -/
theorem bias_routing_amended (bm : Bool) (named : List NParam) (lr : ℚ)
    (np : NParam) (hmem : np ∈ named) (g : ParamGroup)
    (hg : ((buildGroupsForSet bm true named lr).1).head? = some g) :
    np ∈ g.params ↔ (biasChars <:+ np.name ∨ np.name.length = 3) := by
  unfold buildGroupsForSet at hg
  simp only [if_pos] at hg
  rw [List.head?_cons, Option.some_inj] at hg
  subst hg
  simp only [List.mem_filter]
  rw [← isBiasName_iff]
  constructor
  · intro h
    exact h.2
  · intro h
    exact ⟨hmem, h⟩

theorem bias_routing_amended_witness :
    (⟨['f', 'c', '.', 'b', 'i', 'a', 's'], 0⟩ : NParam) ∈
        [(⟨['f', 'c', '.', 'b', 'i', 'a', 's'], 0⟩ : NParam)] ∧
    ((⟨['f', 'c', '.', 'b', 'i', 'a', 's'], 0⟩ : NParam) ∈
        (⟨[⟨['f', 'c', '.', 'b', 'i', 'a', 's'], 0⟩], 1, true, false⟩ :
          ParamGroup).params ↔
      (biasChars <:+ ['f', 'c', '.', 'b', 'i', 'a', 's'] ∨
        (['f', 'c', '.', 'b', 'i', 'a', 's'] : List Char).length = 3)) :=
  ⟨by decide,
    bias_routing_amended true [⟨['f', 'c', '.', 'b', 'i', 'a', 's'], 0⟩] 1
      ⟨['f', 'c', '.', 'b', 'i', 'a', 's'], 0⟩ (by decide)
      ⟨[⟨['f', 'c', '.', 'b', 'i', 'a', 's'], 0⟩], 1, true, false⟩ (by decide)⟩

theorem pidCount_buildGroupsForSet (use_bm use_nsc : Bool) (named : List NParam)
    (lr : ℚ) (pid : Nat) :
    pidCount (buildGroupsForSet use_bm use_nsc named lr).1 pid =
      named.countP (fun np => np.pid == pid) := by
  unfold buildGroupsForSet pidCount
  cases use_nsc
  · simp
  · simp only [if_pos, List.map_cons, List.map_nil, List.sum_cons, List.sum_nil,
      Nat.add_zero]
    exact (List.countP_eq_countP_filter_add named _
      (fun np => isBiasName np.name)).symm

theorem countP_pid_eq_count (pid : Nat) (l : List NParam) :
    l.countP (fun np => np.pid == pid) = (l.map (fun np => np.pid)).count pid := by
  rw [List.count, List.countP_map]
  rfl

/-- C2: the group list built at startup partitions the model's enumerated
parameters by object identity: every parameter of the full named-parameter
enumeration occurs exactly once across the whole group list (no overlap,
no omission), assuming the enumerations themselves repeat no object. -/
theorem groups_partition (cfg : GroupConfig) (allNamed lastNamed : List NParam)
    (hall : (allNamed.map (fun np => np.pid)).Nodup)
    (hlast : (lastNamed.map (fun np => np.pid)).Nodup)
    (np : NParam) (hmem : np ∈ allNamed) :
    pidCount (paramGroups cfg allNamed lastNamed) np.pid = 1 := by
  have hsplit : pidCount (paramGroups cfg allNamed lastNamed) np.pid =
      (nonlastNamed allNamed lastNamed).countP (fun q => q.pid == np.pid) +
      lastNamed.countP (fun q => q.pid == np.pid) := by
    unfold paramGroups buildAll pidCount
    simp only [List.foldl_cons, List.foldl_nil, List.nil_append, List.map_append,
      List.sum_append]
    rw [← pidCount_buildGroupsForSet cfg.batch_manhattan cfg.no_sign_change
      (nonlastNamed allNamed lastNamed) cfg.lr np.pid,
      ← pidCount_buildGroupsForSet cfg.last_layer_batch_manhattan
      cfg.last_layer_no_sign_change lastNamed cfg.llr np.pid]
    rfl
  rw [hsplit]
  by_cases hin : np.pid ∈ lastNamed.map (fun q => q.pid)
  · have h1 : lastNamed.countP (fun q => q.pid == np.pid) = 1 := by
      rw [countP_pid_eq_count]
      exact List.count_eq_one_of_mem hlast hin
    have h0 : (nonlastNamed allNamed lastNamed).countP (fun q => q.pid == np.pid) = 0 := by
      unfold nonlastNamed
      rw [List.countP_filter, List.countP_eq_zero]
      intro q _ hq
      simp only [Bool.and_eq_true, beq_iff_eq, Bool.not_eq_eq_eq_not, Bool.not_true,
        List.any_eq_false] at hq
      rcases hq with ⟨hqp, hnone⟩
      rcases List.mem_map.mp hin with ⟨lp, hlp, hlpe⟩
      exact absurd (by simp [hqp, hlpe]) (hnone lp hlp)
    omega
  · have h1 : lastNamed.countP (fun q => q.pid == np.pid) = 0 := by
      rw [List.countP_eq_zero]
      intro q hq hqe
      exact hin (List.mem_map.mpr ⟨q, hq, (beq_iff_eq.mp hqe)⟩)
    have h0 : (nonlastNamed allNamed lastNamed).countP (fun q => q.pid == np.pid) = 1 := by
      unfold nonlastNamed
      rw [List.countP_filter]
      have : allNamed.countP
          (fun q => (q.pid == np.pid) && !(lastNamed.any fun lp => q.pid == lp.pid)) =
          allNamed.countP (fun q => q.pid == np.pid) := by
        apply List.countP_congr
        intro q _
        cases hqe : (q.pid == np.pid)
        · simp
        · simp only [Bool.true_and, beq_iff_eq, eq_iff_iff, true_iff]
          simp only [Bool.not_eq_eq_eq_not, Bool.not_true, List.any_eq_false]
          simp only [iff_true]
          intro lp hlp hcontra
          apply hin
          rw [← beq_iff_eq.mp hqe]
          exact List.mem_map.mpr ⟨lp, hlp, (beq_iff_eq.mp hcontra).symm⟩
      rw [this, countP_pid_eq_count]
      exact List.count_eq_one_of_mem hall (List.mem_map.mpr ⟨np, hmem, rfl⟩)
    omega

theorem groups_partition_witness :
    (([⟨['c', '1'], 0⟩, ⟨['f', '.', 'w'], 1⟩, ⟨['f', '.', 'b', 'i', 'a', 's'], 2⟩]
        : List NParam).map (fun np => np.pid)).Nodup ∧
    (([⟨['w'], 1⟩, ⟨['b', 'i', 'a', 's'], 2⟩] : List NParam).map
        (fun np => np.pid)).Nodup ∧
    (⟨['c', '1'], 0⟩ : NParam) ∈
      ([⟨['c', '1'], 0⟩, ⟨['f', '.', 'w'], 1⟩, ⟨['f', '.', 'b', 'i', 'a', 's'], 2⟩]
        : List NParam) ∧
    pidCount (paramGroups ⟨true, false, true, true, 1/10, 1/100⟩
      [⟨['c', '1'], 0⟩, ⟨['f', '.', 'w'], 1⟩, ⟨['f', '.', 'b', 'i', 'a', 's'], 2⟩]
      [⟨['w'], 1⟩, ⟨['b', 'i', 'a', 's'], 2⟩]) 0 = 1 :=
  ⟨by decide, by decide, by decide,
    groups_partition ⟨true, false, true, true, 1/10, 1/100⟩
      [⟨['c', '1'], 0⟩, ⟨['f', '.', 'w'], 1⟩, ⟨['f', '.', 'b', 'i', 'a', 's'], 2⟩]
      [⟨['w'], 1⟩, ⟨['b', 'i', 'a', 's'], 2⟩] (by decide) (by decide)
      ⟨['c', '1'], 0⟩ (by decide)⟩

/-- C3: for one top-level parameter set, the Group Builder emits exactly one
group (all parameters, flag off) when the set's No-Sign-Change flag is
false, and exactly two groups (bias subset with flag off, then non-bias
subset with flag on) when it is true; every emitted group carries the
parent set's learning rate and Batch-Manhattan flag. -/
theorem group_builder_per_set (use_bm use_nsc : Bool) (named : List NParam)
    (lr : ℚ) :
    (use_nsc = false →
      (buildGroupsForSet use_bm use_nsc named lr).1 =
        [⟨named, lr, use_bm, false⟩]) ∧
    (use_nsc = true →
      (buildGroupsForSet use_bm use_nsc named lr).1 =
        [⟨named.filter (fun np => isBiasName np.name), lr, use_bm, false⟩,
         ⟨named.filter (fun np => !isBiasName np.name), lr, use_bm, true⟩]) := by
  constructor
  · intro h
    subst h
    rfl
  · intro h
    subst h
    rfl

theorem group_builder_per_set_witness :
    (buildGroupsForSet true false [⟨['w'], 0⟩] (1/10)).1 =
      [⟨[⟨['w'], 0⟩], 1/10, true, false⟩] ∧
    (buildGroupsForSet false true [⟨['w'], 0⟩, ⟨['b', 'i', 'a', 's'], 1⟩] 1).1 =
      [⟨[⟨['b', 'i', 'a', 's'], 1⟩], 1, false, false⟩,
       ⟨[⟨['w'], 0⟩], 1, false, true⟩] :=
  ⟨(group_builder_per_set true false [⟨['w'], 0⟩] (1/10)).1 rfl,
    by
      rw [(group_builder_per_set false true
        [⟨['w'], 0⟩, ⟨['b', 'i', 'a', 's'], 1⟩] 1).2 rfl]
      decide⟩

/-- C4: the emitted group list is deterministic: all groups of the non-last
set precede all groups of the last set; within a set whose No-Sign-Change
flag is true the bias-exempt group (flag false) precedes the constrained
group (flag true); and the `lrs` list recorded for the Schedule Controller
holds, at each position, exactly the learning rate of the group at the same
position. -/
theorem group_order_and_lr_alignment (cfg : GroupConfig)
    (allNamed lastNamed : List NParam) :
    paramGroups cfg allNamed lastNamed =
      (buildGroupsForSet cfg.batch_manhattan cfg.no_sign_change
        (nonlastNamed allNamed lastNamed) cfg.lr).1 ++
      (buildGroupsForSet cfg.last_layer_batch_manhattan
        cfg.last_layer_no_sign_change lastNamed cfg.llr).1 ∧
    lrsList cfg allNamed lastNamed =
      (paramGroups cfg allNamed lastNamed).map (fun g => g.lr) ∧
    (∀ bm : Bool, ∀ named : List NParam, ∀ lr : ℚ,
      (buildGroupsForSet bm true named lr).1.map (fun g => g.no_sign_change) =
        [false, true]) := by
  refine ⟨?_, ?_, ?_⟩
  · unfold paramGroups buildAll
    simp
  · unfold paramGroups lrsList buildAll
    simp only [List.foldl_cons, List.foldl_nil, List.nil_append, List.map_append]
    unfold buildGroupsForSet
    cases cfg.no_sign_change <;> cases cfg.last_layer_no_sign_change <;> simp
  · intro bm named lr
    rfl

/-- `adjust_learning_rate` (`train.py` lines 485-489): for each group and
its original base learning rate, writes
`lr = lr0 * 0.1 ** (epoch // lr_decay)` into the group, pairing groups and
base rates positionally (Python `zip`). -/
def adjust_learning_rate (groups : List ParamGroup) (epoch : Nat)
    (lr0s : List ℚ) (lr_decay : Nat) : List ParamGroup :=
  List.zipWith
    (fun g lr0 =>
      ⟨g.params, lr0 * (1 / 10 : ℚ) ^ (epoch / lr_decay),
        g.batch_manhattan, g.no_sign_change⟩)
    groups lr0s

/-- C6: the Schedule Controller sets every group's learning rate to
`base_lr * 0.1 ^ floor(epoch / D)` where `base_lr` is the group's own base
rate and `D` the shared decay cadence; with `base_lr = 0.1` and `D = 10`
the rate is `0.1` at epochs 0 and 9, `0.01` at epoch 10 and `0.001` at
epoch 25. -/
theorem schedule_controller :
    (∀ (groups : List ParamGroup) (lr0s : List ℚ) (epoch D i : Nat),
      0 < D → ∀ (hg : i < groups.length) (hl : i < lr0s.length),
      ((adjust_learning_rate groups epoch lr0s D).get
          ⟨i, by simpa [adjust_learning_rate] using ⟨hg, hl⟩⟩).lr =
        lr0s.get ⟨i, hl⟩ * (1 / 10 : ℚ) ^ (epoch / D)) ∧
    (adjust_learning_rate [⟨[], 0, false, false⟩] 0 [1 / 10] 10).map
      (fun g => g.lr) = [1 / 10] ∧
    (adjust_learning_rate [⟨[], 0, false, false⟩] 9 [1 / 10] 10).map
      (fun g => g.lr) = [1 / 10] ∧
    (adjust_learning_rate [⟨[], 0, false, false⟩] 10 [1 / 10] 10).map
      (fun g => g.lr) = [1 / 100] ∧
    (adjust_learning_rate [⟨[], 0, false, false⟩] 25 [1 / 10] 10).map
      (fun g => g.lr) = [1 / 1000] := by
  refine ⟨?_, by simp [adjust_learning_rate],
    by simp [adjust_learning_rate],
    by simp [adjust_learning_rate]; norm_num,
    by simp [adjust_learning_rate]; norm_num⟩
  intro groups lr0s epoch D i _ hg hl
  unfold adjust_learning_rate
  rw [List.get_eq_getElem, List.get_eq_getElem, List.getElem_zipWith]

theorem schedule_controller_witness :
    (0 < 10) ∧
    ((adjust_learning_rate [⟨[], 0, false, false⟩] 25 [1 / 10] 10).get
        ⟨0, by decide⟩).lr = (1 / 10 : ℚ) * (1 / 10 : ℚ) ^ (25 / 10) :=
  ⟨by decide,
    schedule_controller.1 [⟨[], 0, false, false⟩] [1 / 10] 25 10 0
      (by decide) (by decide) (by decide)⟩

/-- The failure modes of `main`'s model construction and last-layer
identification (`train.py` lines 142-192), classified by the Python
exception they raise. -/
inductive SetupErr where
  /-- The assertion `'only resnets or alexnet supported'` (line 150). -/
  | assertArch : SetupErr
  /-- `ValueError('Using non-standard models but pretrained set to True')`
  (line 153). -/
  | pretrainedValue : SetupErr
  /-- `KeyError`: the architecture name is absent from the models module's
  dictionary (lines 145, 148, 158). -/
  | keyArch : SetupErr
  /-- `NameError`/`UnboundLocalError`: none of the branches in lines
  174-190 assigned `model_last_named_parameters`, so line 192 reads an
  unbound local. -/
  | nameLastLayer : SetupErr
deriving DecidableEq, Repr

/-- Which of the Python exceptions the spec's error model files under
`ConfigurationError` (spec section 7): the unsupported-architecture
assertion and the pretrained-with-non-default-algorithm `ValueError`. -/
def isConfigurationError : SetupErr → Bool
  | SetupErr.assertArch => true
  | SetupErr.pretrainedValue => true
  | SetupErr.keyArch => false
  | SetupErr.nameLastLayer => false

/-- The characters of the Python literal `'None'`. -/
def noneChars : List Char := ['N', 'o', 'n', 'e']

/-- The characters of `'resnet'`. -/
def resnetChars : List Char := ['r', 'e', 's', 'n', 'e', 't']

/-- The characters of `'alexnet'`. -/
def alexnetChars : List Char := ['a', 'l', 'e', 'x', 'n', 'e', 't']

/-- The supported-family test of `train.py` line 150:
`args.arch.startswith('resnet') or args.arch.startswith('alexnet')`. -/
def archSupported (arch : List Char) : Bool :=
  resnetChars.isPrefixOf arch || alexnetChars.isPrefixOf arch

/-- Model creation, `train.py` lines 142-160.  `tvHas` models whether the
reference (torchvision) models module exposes `arch`; `customHas` whether
the asymmetric-feedback models module does. -/
def createModel (algo arch : List Char) (pretrained tvHas customHas : Bool) :
    Except SetupErr Unit :=
  if algo == noneChars then
    if tvHas then Except.ok () else Except.error SetupErr.keyArch
  else
    if !archSupported arch then Except.error SetupErr.assertArch
    else if pretrained then Except.error SetupErr.pretrainedValue
    else if customHas then Except.ok () else Except.error SetupErr.keyArch

/-- Last-layer identification, `train.py` lines 174-192: every branch
handles only `resnet*` (via `fc`) and `alexnet*` (via `classifier[-1]`);
any other architecture leaves `model_last_named_parameters` unbound and
line 192 raises. -/
def lastLayerExtract (arch : List Char) : Except SetupErr Unit :=
  if resnetChars.isPrefixOf arch then Except.ok ()
  else if alexnetChars.isPrefixOf arch then Except.ok ()
  else Except.error SetupErr.nameLastLayer

/-- The setup sequence of `main` up to the point where parameter groups are
built (`train.py` lines 142-198): model creation, then last-layer
identification; the first raised exception aborts. -/
def setupModel (algo arch : List Char) (pretrained tvHas customHas : Bool) :
    Except SetupErr Unit :=
  match createModel algo arch pretrained tvHas customHas with
  | Except.error e => Except.error e
  | Except.ok _ => lastLayerExtract arch

/-- C7 counterexample: with the default algorithm `'None'` and the
unsupported architecture `'vgg16'`, setup does fail before groups are
built, but with a `NameError` (unbound `model_last_named_parameters`) or a
`KeyError`, not with a `ConfigurationError`. -/
theorem unsupported_arch_counterexample :
    setupModel noneChars ['v', 'g', 'g', '1', '6'] false true true =
      Except.error SetupErr.nameLastLayer ∧
    setupModel noneChars ['v', 'g', 'g', '1', '6'] false false true =
      Except.error SetupErr.keyArch ∧
    isConfigurationError SetupErr.nameLastLayer = false ∧
    isConfigurationError SetupErr.keyArch = false ∧
    archSupported ['v', 'g', 'g', '1', '6'] = false := by
  refine ⟨rfl, rfl, rfl, rfl, by decide⟩

/-- C7 (amended): every configuration whose architecture is outside the
supported families (`resnet*`, `alexnet*`) fails before any parameter group
is built — with a `ConfigurationError` (the line-150 assertion) whenever the
algorithm is non-default, but with a `KeyError` or `NameError` (never a
`ConfigurationError`) when the algorithm is the default `'None'`. -/
theorem unsupported_arch_amended (algo arch : List Char)
    (pretrained tvHas customHas : Bool) (h : archSupported arch = false) :
    ∃ e, setupModel algo arch pretrained tvHas customHas = Except.error e ∧
      (algo ≠ noneChars → isConfigurationError e = true) ∧
      (algo = noneChars → isConfigurationError e = false) := by
  by_cases hn : algo = noneChars
  · subst hn
    unfold setupModel createModel lastLayerExtract
    have h1 : resnetChars.isPrefixOf arch = false := by
      unfold archSupported at h
      cases hr : resnetChars.isPrefixOf arch <;> simp [hr] at h ⊢
    have h2 : alexnetChars.isPrefixOf arch = false := by
      unfold archSupported at h
      cases ha : alexnetChars.isPrefixOf arch <;> simp [ha] at h ⊢
    cases tvHas
    · refine ⟨SetupErr.keyArch, ?_, ?_, ?_⟩ <;> simp [isConfigurationError]
    · refine ⟨SetupErr.nameLastLayer, ?_, ?_, ?_⟩ <;>
        simp [h1, h2, isConfigurationError]
  · refine ⟨SetupErr.assertArch, ?_, ?_, ?_⟩
    · unfold setupModel createModel
      have : (algo == noneChars) = false := beq_eq_false_iff_ne.mpr hn
      simp [this, h]
    · intro _
      rfl
    · intro hc
      exact absurd hc hn

theorem unsupported_arch_amended_witness :
    archSupported ['v', 'g', 'g', '1', '6'] = false ∧
    ∃ e, setupModel ['s', 's'] ['v', 'g', 'g', '1', '6'] false true true =
        Except.error e ∧
      (['s', 's'] ≠ noneChars → isConfigurationError e = true) ∧
      (['s', 's'] = noneChars → isConfigurationError e = false) :=
  ⟨by decide,
    unsupported_arch_amended ['s', 's'] ['v', 'g', 'g', '1', '6'] false true true
      (by decide)⟩

/-- C8: every configuration that requests pretrained weights together with
a non-default algorithm (`algo` other than `'None'`) fails during setup
with a `ConfigurationError` — either the unsupported-architecture assertion
or the `ValueError` of line 153, both of which the spec classifies as
`ConfigurationError`. -/
theorem pretrained_nondefault_rejected (algo arch : List Char)
    (tvHas customHas : Bool) (h : algo ≠ noneChars) :
    ∃ e, setupModel algo arch true tvHas customHas = Except.error e ∧
      isConfigurationError e = true := by
  have hbeq : (algo == noneChars) = false := beq_eq_false_iff_ne.mpr h
  unfold setupModel createModel
  cases hs : archSupported arch
  · exact ⟨SetupErr.assertArch, by simp [hbeq, hs], rfl⟩
  · exact ⟨SetupErr.pretrainedValue, by simp [hbeq, hs], rfl⟩

theorem pretrained_nondefault_rejected_witness :
    (['s', 's'] : List Char) ≠ noneChars ∧
    ∃ e, setupModel ['s', 's'] ['r', 'e', 's', 'n', 'e', 't', '1', '8'] true
        true true = Except.error e ∧ isConfigurationError e = true :=
  ⟨by decide,
    pretrained_nondefault_rejected ['s', 's']
      ['r', 'e', 's', 'n', 'e', 't', '1', '8'] true true (by decide)⟩

/-- A filesystem path, split into components; `absolute` marks a leading
slash. -/
structure PyPath where
  absolute : Bool
  comps : List String
deriving DecidableEq, Repr

/-- `os.path.join(a, b)`: an absolute second argument replaces the first,
otherwise the components concatenate. -/
def osPathJoin (a b : PyPath) : PyPath :=
  if b.absolute then b else ⟨a.absolute, a.comps ++ b.comps⟩

/-- OS-level resolution of `.` and `..` components (no symlinks): `.` is
dropped, `..` removes the preceding component (staying at the root when
there is none). -/
def normComps (cs : List String) : List String :=
  cs.foldl
    (fun acc c =>
      if c == "." then acc else if c == ".." then acc.dropLast else acc ++ [c])
    []

/-- Resolve a path against the (absolute, already normalized) current
working directory, yielding normalized absolute components. -/
def resolve (cwd : List String) (p : PyPath) : List String :=
  if p.absolute then normComps p.comps else normComps (cwd ++ p.comps)

/-- `shutil.copyfile(src, dst)`: fails when the source file does not exist;
otherwise the destination file now exists.  The filesystem is modelled as
the list of existing files' resolved paths. -/
def copyfile (cwd : List String) (src dst : PyPath) (fs : List (List String)) :
    Except Unit (List (List String)) :=
  if resolve cwd src ∈ fs then Except.ok (resolve cwd dst :: fs)
  else Except.error ()

/-- The periodic-snapshot condition of `train.py` lines 460-461:
`args.save_every_epoch or (args.save_every_n_epochs > 0 and epoch % args.save_every_n_epochs == 0)`. -/
def snapshotDue (save_every_epoch : Bool) (save_every_n_epochs : Int)
    (epoch : Nat) : Bool :=
  save_every_epoch ||
    (save_every_n_epochs > 0 && (epoch : Int) % save_every_n_epochs == 0)

/-- `save_checkpoint` (`train.py` lines 455-463): `torch.save` writes the
checkpoint at `os.path.join(args.prefix, filename)`; the best-model copy
and the periodic snapshot copy both read from the bare relative path
`filename`.  `epochName` stands for the formatted
`'epoch%03d.pth.tar' % epoch` string. -/
def save_checkpoint (cwd : List String) (pfx filename : PyPath)
    (is_best save_every_epoch : Bool) (save_every_n_epochs : Int)
    (epoch : Nat) (epochName : String) (fs : List (List String)) :
    Except Unit (List (List String)) :=
  let fs1 := resolve cwd (osPathJoin pfx filename) :: fs
  let afterBest :=
    if is_best then
      copyfile cwd filename (osPathJoin pfx ⟨false, ["model_best.pth.tar"]⟩) fs1
    else Except.ok fs1
  match afterBest with
  | Except.error e => Except.error e
  | Except.ok fs2 =>
    if snapshotDue save_every_epoch save_every_n_epochs epoch then
      copyfile cwd filename (osPathJoin pfx ⟨false, [epochName]⟩) fs2
    else Except.ok fs2

theorem normComps_append_single (xs : List String) (f : String)
    (h1 : (f == ".") = false) (h2 : (f == "..") = false) :
    normComps (xs ++ [f]) = normComps xs ++ [f] := by
  have hp1 : f ≠ "." := by
    intro hc
    rw [hc] at h1
    simp at h1
  have hp2 : f ≠ ".." := by
    intro hc
    rw [hc] at h2
    simp at h2
  unfold normComps
  rw [List.foldl_append]
  simp [hp1, hp2]

/-- C9: `save_checkpoint` writes the checkpoint file under the prefix
directory (`prefix/filename`), but the best-model and periodic snapshot
copies read from the bare relative path `filename`; on a filesystem where
the just-written checkpoint is the only file of that name, the copies
succeed exactly when the prefix directory resolves to the current working
directory, and fail otherwise. -/
theorem save_checkpoint_copies_from_cwd (cwd : List String) (pfx : PyPath)
    (f epochName : String) (is_best save_every_epoch : Bool)
    (save_every_n_epochs : Int) (epoch : Nat) (fs : List (List String))
    (hcwd : normComps cwd = cwd)
    (h1 : (f == ".") = false) (h2 : (f == "..") = false)
    (hstray : cwd ++ [f] ∉ fs)
    (hdo : is_best = true ∨
      snapshotDue save_every_epoch save_every_n_epochs epoch = true) :
    resolve cwd (osPathJoin pfx ⟨false, [f]⟩) = resolve cwd pfx ++ [f] ∧
    ((∃ fs2, save_checkpoint cwd pfx ⟨false, [f]⟩ is_best save_every_epoch
        save_every_n_epochs epoch epochName fs = Except.ok fs2) ↔
      resolve cwd pfx = cwd) := by
  obtain ⟨ab, cs⟩ := pfx
  have htarget : resolve cwd (osPathJoin ⟨ab, cs⟩ ⟨false, [f]⟩) =
      resolve cwd ⟨ab, cs⟩ ++ [f] := by
    unfold osPathJoin resolve
    cases ab
    · simp only [if_neg, Bool.false_eq_true, ite_false, ← List.append_assoc]
      exact normComps_append_single _ _ h1 h2
    · simp only [if_pos, ite_true]
      exact normComps_append_single _ _ h1 h2
  refine ⟨htarget, ?_⟩
  have hsrc : resolve cwd ⟨false, [f]⟩ = cwd ++ [f] := by
    unfold resolve
    simp only [Bool.false_eq_true, ite_false]
    rw [normComps_append_single _ _ h1 h2, hcwd]
  unfold save_checkpoint
  simp only [htarget, hsrc]
  by_cases hD : resolve cwd ⟨ab, cs⟩ = cwd
  · rw [hD]
    have hmem1 : cwd ++ [f] ∈ (cwd ++ [f]) :: fs := List.mem_cons_self _ _
    have hcopy1 : ∀ dst fs0, cwd ++ [f] ∈ fs0 →
        ∃ fs2, copyfile cwd ⟨false, [f]⟩ dst fs0 = Except.ok fs2 := by
      intro dst fs0 hm
      refine ⟨resolve cwd dst :: fs0, ?_⟩
      unfold copyfile
      rw [hsrc, if_pos hm]
    simp only [iff_true]
    cases hib : is_best
    · simp only [Bool.false_eq_true, ite_false]
      rcases hdo with hdo | hdo
      · exact absurd hib (by rw [hdo]; intro hc; cases hc)
      · rw [hdo, if_pos rfl]
        exact hcopy1 _ _ hmem1
    · simp only [ite_true]
      rcases hcopy1 (osPathJoin ⟨ab, cs⟩ ⟨false, ["model_best.pth.tar"]⟩)
        ((cwd ++ [f]) :: fs) hmem1 with ⟨fs2, hfs2⟩
      rw [hfs2]
      cases hdue : snapshotDue save_every_epoch save_every_n_epochs epoch
      · exact ⟨fs2, by simp [hdue]⟩
      · simp only [ite_true]
        apply hcopy1
        have : cwd ++ [f] ∈ (cwd ++ [f]) :: fs := hmem1
        have hfs2mem : cwd ++ [f] ∈ fs2 := by
          unfold copyfile at hfs2
          rw [hsrc, if_pos hmem1] at hfs2
          cases hfs2
          exact List.mem_cons_of_mem _ hmem1
        exact hfs2mem
  · have hnomem : cwd ++ [f] ∉ (resolve cwd ⟨ab, cs⟩ ++ [f]) :: fs := by
      intro hmem
      rcases List.mem_cons.mp hmem with heq | hin
      · exact hD (List.append_cancel_right heq).symm
      · exact hstray hin
    have hcopyfail : ∀ dst,
        copyfile cwd ⟨false, [f]⟩ dst ((resolve cwd ⟨ab, cs⟩ ++ [f]) :: fs) =
          Except.error () := by
      intro dst
      unfold copyfile
      rw [hsrc, if_neg hnomem]
    simp only [hD, iff_false]
    rintro ⟨fs2, hfs2⟩
    cases hib : is_best
    · rw [hib] at hfs2
      simp only [Bool.false_eq_true, ite_false] at hfs2
      rcases hdo with hdo | hdo
      · rw [hib] at hdo
        cases hdo
      · rw [hdo, if_pos rfl] at hfs2
        rw [hcopyfail] at hfs2
        cases hfs2
    · rw [hib] at hfs2
      simp only [ite_true] at hfs2
      rw [hcopyfail] at hfs2
      cases hfs2

theorem save_checkpoint_copies_from_cwd_witness :
    normComps ["home", "user"] = ["home", "user"] ∧
    (("checkpoint.pth.tar" == ".") = false) ∧
    (("checkpoint.pth.tar" == "..") = false) ∧
    (["home", "user", "checkpoint.pth.tar"] ∉ ([] : List (List String))) ∧
    ((true : Bool) = true ∨ snapshotDue false (-1) 0 = true) ∧
    (resolve ["home", "user"] (osPathJoin ⟨false, ["runs"]⟩
        ⟨false, ["checkpoint.pth.tar"]⟩) =
      resolve ["home", "user"] ⟨false, ["runs"]⟩ ++ ["checkpoint.pth.tar"] ∧
    ((∃ fs2, save_checkpoint ["home", "user"] ⟨false, ["runs"]⟩
        ⟨false, ["checkpoint.pth.tar"]⟩ true false (-1) 0 "epoch000.pth.tar"
        [] = Except.ok fs2) ↔
      resolve ["home", "user"] ⟨false, ["runs"]⟩ = ["home", "user"])) :=
  ⟨by decide, by decide, by decide, by decide, Or.inl rfl,
    save_checkpoint_copies_from_cwd ["home", "user"] ⟨false, ["runs"]⟩
      "checkpoint.pth.tar" "epoch000.pth.tar" true false (-1) 0 []
      (by decide) (by decide) (by decide) (by decide) (Or.inl rfl)⟩

/-- The fields of the saved checkpoint dictionary that the resume logic
reads (`train.py` lines 246-247 and 351-356). -/
structure Ckpt where
  epoch : Nat
  best_prec1 : ℚ
deriving DecidableEq, Repr

/-- The epoch loop of `main` (`train.py` lines 337-358), abstracted over
the validation precision `precs e` observed after training epoch `e`:
starting at epoch `e` with current best `best`, runs `n` epochs and
returns the sequence of checkpoints saved (`'epoch': epoch + 1`,
`'best_prec1': max(prec1, best_prec1)`). -/
def trainLoop (precs : Nat → ℚ) : Nat → Nat → ℚ → List Ckpt
  | _, 0, _ => []
  | e, n + 1, best =>
    let prec1 := precs e
    let best1 := max prec1 best
    ⟨e + 1, best1⟩ :: trainLoop precs (e + 1) n best1

/-- Closed form of the running best: the maximum of `b0` and the
precisions observed at epochs `s` through `s + i`. -/
def bestVal (precs : Nat → ℚ) (s : Nat) (b0 : ℚ) : Nat → ℚ
  | 0 => max (precs s) b0
  | i + 1 => max (precs (s + i + 1)) (bestVal precs s b0 i)

theorem bestVal_shift (precs : Nat → ℚ) (s : Nat) (b0 : ℚ) (i : Nat) :
    bestVal precs (s + 1) (max (precs s) b0) i = bestVal precs s b0 (i + 1) := by
  induction i with
  | zero =>
    simp [bestVal]
  | succ i ih =>
    show max (precs (s + 1 + i + 1)) (bestVal precs (s + 1) (max (precs s) b0) i) = _
    rw [ih]
    have : s + 1 + i + 1 = s + (i + 1) + 1 := by omega
    rw [this]
    rfl

theorem trainLoop_eq_map (precs : Nat → ℚ) (n s : Nat) (b0 : ℚ) :
    trainLoop precs s n b0 =
      (List.range n).map (fun i => ⟨s + i + 1, bestVal precs s b0 i⟩) := by
  induction n generalizing s b0 with
  | zero => rfl
  | succ n ih =>
    rw [List.range_succ_eq_map, List.map_cons, List.map_map]
    show (⟨s + 1, max (precs s) b0⟩ : Ckpt) ::
        trainLoop precs (s + 1) n (max (precs s) b0) = _
    rw [ih]
    congr 1
    apply List.map_congr_left
    intro i _
    show (⟨s + 1 + i + 1, bestVal precs (s + 1) (max (precs s) b0) i⟩ : Ckpt) = _
    rw [bestVal_shift]
    simp only [Function.comp]
    congr 1
    omega

theorem bestVal_le_succ (precs : Nat → ℚ) (s : Nat) (b0 : ℚ) (i : Nat) :
    bestVal precs s b0 i ≤ bestVal precs s b0 (i + 1) :=
  le_max_right _ _

theorem bestVal_mono (precs : Nat → ℚ) (s : Nat) (b0 : ℚ) (i j : Nat)
    (h : i ≤ j) : bestVal precs s b0 i ≤ bestVal precs s b0 j := by
  induction j with
  | zero =>
    rw [Nat.le_zero.mp h]
  | succ j ih =>
    rcases Nat.lt_or_ge i (j + 1) with hlt | hge
    · exact le_trans (ih (by omega)) (bestVal_le_succ precs s b0 j)
    · rw [Nat.le_antisymm h hge]

theorem le_bestVal_init (precs : Nat → ℚ) (s : Nat) (b0 : ℚ) (i : Nat) :
    b0 ≤ bestVal precs s b0 i := by
  induction i with
  | zero => exact le_max_right _ _
  | succ i ih => exact le_trans ih (le_max_right _ _)

theorem precs_le_bestVal (precs : Nat → ℚ) (s : Nat) (b0 : ℚ) (i k : Nat)
    (h : k ≤ i) : precs (s + k) ≤ bestVal precs s b0 i := by
  induction i with
  | zero =>
    rw [Nat.le_zero.mp h]
    exact le_max_left _ _
  | succ i ih =>
    rcases Nat.lt_or_ge k (i + 1) with hlt | hge
    · exact le_trans (ih (by omega)) (le_max_right _ _)
    · rw [Nat.le_antisymm h hge]
      exact le_max_left _ _

theorem bestVal_attained (precs : Nat → ℚ) (s : Nat) (b0 : ℚ) (i : Nat) :
    bestVal precs s b0 i = b0 ∨ ∃ k, k ≤ i ∧ bestVal precs s b0 i = precs (s + k) := by
  induction i with
  | zero =>
    rcases max_choice (precs s) b0 with h | h
    · exact Or.inr ⟨0, le_refl 0, h⟩
    · exact Or.inl h
  | succ i ih =>
    rcases max_choice (precs (s + i + 1)) (bestVal precs s b0 i) with h | h
    · exact Or.inr ⟨i + 1, le_refl _, by rw [show s + (i + 1) = s + i + 1 by omega]; exact h⟩
    · rcases ih with h0 | ⟨k, hk, he⟩
      · exact Or.inl (h.trans h0)
      · exact Or.inr ⟨k, by omega, h.trans he⟩

theorem trainLoop_length (precs : Nat → ℚ) (s n : Nat) (b0 : ℚ) :
    (trainLoop precs s n b0).length = n := by
  rw [trainLoop_eq_map]
  simp

theorem trainLoop_get (precs : Nat → ℚ) (s n : Nat) (b0 : ℚ) (i : Nat)
    (hi : i < (trainLoop precs s n b0).length) :
    (trainLoop precs s n b0).get ⟨i, hi⟩ =
      ⟨s + i + 1, bestVal precs s b0 i⟩ := by
  have hmap := trainLoop_eq_map precs n s b0
  rw [List.get_eq_getElem, List.getElem_of_eq hmap, List.getElem_map,
    List.getElem_range]

/-- C10: every saved checkpoint stores the index of the last completed
epoch plus one; resuming at the stored epoch continues the epoch sequence
with no epoch repeated and none skipped; and the stored `best_prec1` is
the running maximum of the initial best and all validation precisions
observed so far, hence non-decreasing across epochs. -/
theorem checkpoint_epoch_resume_best (precs : Nat → ℚ) (s n m : Nat)
    (b0 : ℚ) :
    ((trainLoop precs s n b0).map (fun c => c.epoch) = List.range' (s + 1) n) ∧
    (∀ c, (trainLoop precs s n b0).getLast? = some c →
      (trainLoop precs s n b0 ++ trainLoop precs c.epoch m c.best_prec1).map
          (fun c => c.epoch) =
        List.range' (s + 1) (n + m)) ∧
    (∀ i (hi : i < (trainLoop precs s n b0).length),
      (b0 ≤ ((trainLoop precs s n b0).get ⟨i, hi⟩).best_prec1) ∧
      (∀ k, k ≤ i →
        precs (s + k) ≤ ((trainLoop precs s n b0).get ⟨i, hi⟩).best_prec1) ∧
      (((trainLoop precs s n b0).get ⟨i, hi⟩).best_prec1 = b0 ∨
        ∃ k, k ≤ i ∧
          ((trainLoop precs s n b0).get ⟨i, hi⟩).best_prec1 = precs (s + k)) ∧
      (∀ j (hj : j < (trainLoop precs s n b0).length), i ≤ j →
        ((trainLoop precs s n b0).get ⟨i, hi⟩).best_prec1 ≤
          ((trainLoop precs s n b0).get ⟨j, hj⟩).best_prec1)) := by
  have hepochs : (trainLoop precs s n b0).map (fun c => c.epoch) =
      List.range' (s + 1) n := by
    rw [trainLoop_eq_map, List.map_map]
    rw [List.range'_eq_map_range]
    apply List.map_congr_left
    intro i _
    simp [Function.comp]
    omega
  refine ⟨hepochs, ?_, ?_⟩
  · intro c hc
    have hn : 0 < n := by
      rcases n with _ | n
      · rw [show trainLoop precs s 0 b0 = [] from rfl] at hc
        cases hc
      · omega
    have hlast : c = ⟨s + (n - 1) + 1, bestVal precs s b0 (n - 1)⟩ := by
      rw [trainLoop_eq_map, List.getLast?_eq_getElem?] at hc
      rw [List.length_map, List.length_range, List.getElem?_map,
        List.getElem?_range (by omega : n - 1 < n)] at hc
      exact (Option.some_inj.mp hc).symm
    rw [List.map_append, hepochs]
    have hce : c.epoch = s + n := by
      rw [hlast]
      simp
      omega
    have h2 : (trainLoop precs c.epoch m c.best_prec1).map (fun c => c.epoch) =
        List.range' (s + n + 1) m := by
      rw [hce]
      have := trainLoop_eq_map precs m (s + n) c.best_prec1
      rw [this, List.map_map, List.range'_eq_map_range]
      apply List.map_congr_left
      intro i _
      simp [Function.comp]
      omega
    rw [h2]
    have := List.range'_append_1 (s + 1) n m
    rw [show s + 1 + n = s + n + 1 by omega] at this
    rw [this]
    congr 1
    omega
  · intro i hi
    rw [trainLoop_get]
    refine ⟨le_bestVal_init precs s b0 i, ?_, ?_, ?_⟩
    · intro k hk
      exact precs_le_bestVal precs s b0 i k hk
    · exact bestVal_attained precs s b0 i
    · intro j hj hij
      rw [trainLoop_get]
      exact bestVal_mono precs s b0 i j hij

theorem checkpoint_epoch_resume_best_witness :
    (trainLoop (fun _ => (0 : ℚ)) 0 2 0).getLast? = some ⟨2, 0⟩ ∧
    ((trainLoop (fun _ => (0 : ℚ)) 0 2 0 ++
        trainLoop (fun _ => (0 : ℚ)) 2 2 0).map (fun c => c.epoch) =
      List.range' 1 4) :=
  ⟨by norm_num [trainLoop], by
    have h := (checkpoint_epoch_resume_best (fun _ => (0 : ℚ)) 0 2 2 0).2.1
      ⟨2, 0⟩ (by norm_num [trainLoop])
    simpa using h⟩

theorem qsign_cases (x : ℚ) : qsign x = 1 ∨ qsign x = -1 ∨ qsign x = 0 := by
  unfold qsign
  split
  · exact Or.inl rfl
  · split
    · exact Or.inr (Or.inl rfl)
    · exact Or.inr (Or.inr rfl)

/-- C1: for a non-bias parameter in a group with the No-Sign-Change flag,
one invocation of the update step never changes the parameter's arithmetic
sign: the new value has the same sign as the old one, or is exactly zero.
Where the unclamped delta would cross zero the element is clamped to land
exactly at zero (`delta = p`), never past it. -/
theorem no_sign_change_preserves_sign (bm : Bool) (lr mu wd p g v : ℚ) :
    (qsign (updateElemP bm true lr mu wd p g v) = qsign p ∨
      updateElemP bm true lr mu wd p g v = 0) ∧
    (qsign (p - unclampedDelta bm lr mu wd p g v) ≠ qsign p →
      updateElemP bm true lr mu wd p g v = 0) := by
  unfold updateElemP updateElem
  simp only
  by_cases hflip : qsign (p - unclampedDelta bm lr mu wd p g v) == qsign p
  · constructor
    · left
      simp [hflip]
      exact beq_iff_eq.mp hflip
    · intro hc
      exact absurd (beq_iff_eq.mp hflip) hc
  · constructor
    · right
      simp [hflip]
    · intro _
      simp [hflip]

theorem no_sign_change_preserves_sign_witness :
    qsign ((1 : ℚ) - unclampedDelta false 1 0 0 1 2 0) ≠ qsign 1 ∧
    updateElemP false true 1 0 0 1 2 0 = 0 :=
  ⟨by norm_num [unclampedDelta, qsign],
    (no_sign_change_preserves_sign false 1 0 0 1 2 0).2
      (by norm_num [unclampedDelta, qsign])⟩
